import Mathlib

/-!
Verification of `resolve_conflicts.py`, a script that walks a directory
tree, finds `.tsx`/`.ts` files under `client`/`server` directories that
contain git merge-conflict markers, and rewrites each file, replacing every
conflict block by the incoming (`jules-testing-merges`) side.

The file contents are modelled as `List Char`.  The script's single regex

  `<<<<<<< HEAD.*?=======(.*?)>>>>>>> jules-testing-merges`   (DOTALL)

applied via `re.sub` with replacement `\1` is embedded below as `resolve`:
a left-to-right scan that, at each position, attempts the match (start
marker literal, then lazily up to the first separator, then lazily up to
the first end marker), replaces a successful match by its captured group,
and continues after the match.  Lazy (`.*?`) matching with backtracking is
equivalent to taking the first occurrence of the separator after the start
marker and then the first occurrence of the end marker after the
separator: if the end marker occurs after any later separator occurrence
it also occurs after the first one, so backtracking over separator
positions never changes the result.
-/

/-- The literal start marker `<<<<<<< HEAD` from the regex. -/
def startMarker : List Char := "<<<<<<< HEAD".toList

/-- The literal separator marker `=======` from the regex. -/
def sepMarker : List Char := "=======".toList

/-- The literal end marker `>>>>>>> jules-testing-merges` from the regex. -/
def endMarker : List Char := ">>>>>>> jules-testing-merges".toList

/-- First-occurrence search: `splitAtSub pat s = some (pre, rest)` when
`s = pre ++ pat ++ rest` with `pre` of minimal length, `none` when `pat`
does not occur in `s`.  This is the semantics of a lazy `.*?pat` scan and
of Python's substring `find`. -/
def splitAtSub (pat : List Char) : List Char → Option (List Char × List Char)
  | [] => if pat.isPrefixOf ([] : List Char) then some ([], []) else none
  | c :: cs =>
    if pat.isPrefixOf (c :: cs) then some ([], (c :: cs).drop pat.length)
    else (splitAtSub pat cs).map (fun p => (c :: p.1, p.2))

/-- Whether `pat` occurs as a contiguous substring of `s`; Python's
`pat in s`. -/
def containsSub (pat s : List Char) : Bool :=
  (splitAtSub pat s).isSome

/-- Attempt the conflict regex at the current position (the head of `s`),
exactly as the Python pattern with `re.DOTALL` does: the start marker must
be a prefix, then the lazy gap runs to the first separator, then the lazy
capture group runs to the first end marker.  On success, returns the
captured incoming text and the remainder of `s` after the match. -/
def tryMatch (s : List Char) : Option (List Char × List Char) :=
  if startMarker.isPrefixOf s then
    (splitAtSub sepMarker (s.drop startMarker.length)).bind fun p =>
      splitAtSub endMarker p.2
  else none

/-- Fuelled worker for `resolve`: scan left to right; at each position try
the pattern; on a match emit the captured group and continue after the
match (replacement text is never rescanned), otherwise emit the current
character and advance by one.  This is `re.sub`'s non-overlapping,
leftmost-first substitution.  The fuel only serves termination; `resolve`
supplies `s.length`, which is always sufficient. -/
def resolveAux : Nat → List Char → List Char
  | 0, s => s
  | _ + 1, [] => []
  | fuel + 1, c :: cs =>
    match tryMatch (c :: cs) with
    | some (inc, rest) => inc ++ resolveAux fuel rest
    | none => c :: resolveAux fuel cs

/-- The Resolver's content transformation:
`re.sub(conflict_pattern, r'\1', content, flags=re.DOTALL)`. -/
def resolve (s : List Char) : List Char :=
  resolveAux s.length s

/-- A well-formed conflict block: start marker, current side `cur`,
separator, incoming side `inc`, end marker. -/
def block (cur inc : List Char) : List Char :=
  startMarker ++ cur ++ sepMarker ++ inc ++ endMarker

/-- `noStartIn pat a s = true` when no occurrence of `pat` in `a ++ s`
begins at a position inside `a` (occurrences may still begin in `s`). -/
def noStartIn (pat : List Char) : List Char → List Char → Bool
  | [], _ => true
  | c :: a, s => !(pat.isPrefixOf (c :: (a ++ s))) && noStartIn pat a s

/-- One file met by the directory walk: `root` is the directory path
`os.walk` reports, `name` the file name, and `readResult` the outcome of
`open(file_path).read()` — `none` when reading raises (the `except: pass`
case), `some content` otherwise. -/
structure FileEntry where
  root : List Char
  name : List Char
  readResult : Option (List Char)
deriving DecidableEq

/-- The Scanner's per-file test, following the source loop body: the name
must end with `.tsx` or `.ts`, the directory must contain `client` or
`server`, and then — under the `try` — the read must succeed and the
content must contain `<<<<<<< HEAD`.  A read error is caught and the file
is simply not a candidate. -/
def isCandidate (f : FileEntry) : Bool :=
  if (".tsx".toList.isSuffixOf f.name || ".ts".toList.isSuffixOf f.name)
      && (containsSub "client".toList f.root || containsSub "server".toList f.root) then
    match f.readResult with
    | some content => containsSub startMarker content
    | none => false
  else false

/-- The candidate list built by the walk, in walk order. -/
def conflict_files (entries : List FileEntry) : List FileEntry :=
  entries.filter isCandidate

/-- One file of the resolution phase: its current content and whether the
read and the write performed by `resolve_conflicts` succeed.  I/O outcomes
are abstracted as the two flags. -/
structure FileTask where
  content : List Char
  readOk : Bool
  writeOk : Bool
deriving DecidableEq

/-- `resolve_conflicts(file_path)`: read the file (may raise), transform
the content with the regex substitution, write it back (may raise).  There
is no `try` here, so a failure is modelled as `none`, which aborts the
run. -/
def resolve_conflicts (f : FileTask) : Option FileTask :=
  if f.readOk && f.writeOk then some { f with content := resolve f.content } else none

/-- The resolution loop `for file_path in conflict_files:
resolve_conflicts(file_path)`: files are processed in order; the first
failure propagates (no handler), ending the run with the failing file and
every later file left as they were.  Returns the resulting file states and
whether the run completed normally. -/
def resolveRun : List FileTask → List FileTask × Bool
  | [] => ([], true)
  | f :: fs =>
    match resolve_conflicts f with
    | some f2 =>
      let r := resolveRun fs
      (f2 :: r.1, r.2)
    | none => (f :: fs, false)

/-- The single-conflict file of the spec's round-trip property. -/
def roundTripInput : List Char :=
  "<<<<<<< HEAD\nA\n=======\nB\n>>>>>>> jules-testing-merges\n".toList

/-- A file whose only occurrence of the start marker is mid-line. -/
def midLineInput : List Char :=
  "x<<<<<<< HEAD\nA\n=======\nB\n>>>>>>> jules-testing-merges".toList

/-- A file whose incoming span itself contains nested conflict markers,
so that one pass leaves a start marker behind. -/
def nestedInput : List Char :=
  "<<<<<<< HEAD\n=======<<<<<<< HEAD\n=======\nX\n>>>>>>> jules-testing-merges>>>>>>> jules-testing-merges".toList

/-- Bridge from the executable prefix test to its declarative meaning. -/
theorem isPrefixOf_exists {l1 l2 : List Char} :
    l1.isPrefixOf l2 = true ↔ ∃ t, l2 = l1 ++ t := by
  rw [ List.isPrefixOf_iff_prefix]
  exact ⟨fun ⟨t, h⟩ => ⟨t, h.symm⟩, fun ⟨t, h⟩ => ⟨t, h.symm⟩⟩

/-- Bridge from the executable suffix test (Python `endswith`) to its declarative meaning. -/
theorem isSuffixOf_exists {l1 l2 : List Char} :
    l1.isSuffixOf l2 = true ↔ ∃ t, l2 = t ++ l1 := by
  rw [ List.isSuffixOf_iff_suffix]
  exact ⟨fun ⟨t, h⟩ => ⟨t, h.symm⟩, fun ⟨t, h⟩ => ⟨t, h.symm⟩⟩

/-- Soundness of the first-occurrence search: a successful split really decomposes the string. -/
theorem splitAtSub_sound {pat : List Char} :
    ∀ {s pre rest : List Char}, splitAtSub pat s = some (pre, rest) →
      s = pre ++ (pat ++ rest) := by
  intro s
  induction s with
  | nil =>
    intro pre rest h
    simp only [splitAtSub] at h
    split at h
    · rename_i hp
      rcases isPrefixOf_exists.mp hp with ⟨t, ht⟩
      cases h
      obtain ⟨hp1, ht1⟩ := List.append_eq_nil.mp ht.symm
      simp [hp1]
    · cases h
  | cons c cs ih =>
    intro pre rest h
    simp only [splitAtSub] at h
    split at h
    · rename_i hp
      rcases isPrefixOf_exists.mp hp with ⟨t, ht⟩
      cases h
      simp [ht, List.drop_left]
    · rcases Option.map_eq_some'.mp h with ⟨⟨p1, p2⟩, hsome, heq⟩
      cases heq
      simp [ih hsome]

/-- Searching for `pat` in `pat ++ t` finds it immediately. -/
theorem splitAtSub_self (pat t : List Char) :
    splitAtSub pat (pat ++ t) = some ([], t) := by
  have hp : pat.isPrefixOf (pat ++ t) = true := isPrefixOf_exists.mpr ⟨t, rfl⟩
  cases h : pat ++ t with
  | nil =>
    rcases List.append_eq_nil.mp h with ⟨h1, h2⟩
    subst h1; subst h2; simp [splitAtSub]
  | cons c cs =>
    rw [h] at hp
    have hd : (c :: cs).drop pat.length = t := by rw [← h]; exact List.drop_left _ _
    simp only [splitAtSub, hp]
    simp [hd]

/-- Skip lemma: when no occurrence of `pat` begins inside `a`, searching `a ++ s` is searching `s` with the prefix `a` carried along. -/
theorem splitAtSub_append {pat a s : List Char} (h : noStartIn pat a s = true) :
    splitAtSub pat (a ++ s) = (splitAtSub pat s).map (fun p => (a ++ p.1, p.2)) := by
  induction a with
  | nil =>
    simp only [List.nil_append]
    cases hs : splitAtSub pat s <;> simp [hs]
  | cons c a ih =>
    simp only [noStartIn, Bool.and_eq_true, Bool.not_eq_true'] at h
    obtain ⟨h1, h2⟩ := h
    simp only [List.cons_append, splitAtSub, List.append_eq, h1]
    rw [ih h2]
    cases hs : splitAtSub pat s <;> simp [hs]

/-- The executable substring test agrees with the declarative occurrence statement (Python `pat in s`). -/
theorem containsSub_iff {pat s : List Char} :
    containsSub pat s = true ↔ ∃ a b, s = a ++ (pat ++ b) := by
  constructor
  · intro h
    rcases Option.isSome_iff_exists.mp h with ⟨⟨pre, rest⟩, hsome⟩
    exact ⟨pre, rest, splitAtSub_sound hsome⟩
  · rintro ⟨a, b, rfl⟩
    induction a with
    | nil =>
      simp only [List.nil_append, containsSub]
      cases h : pat ++ b with
      | nil =>
        rcases List.append_eq_nil.mp h with ⟨h1, h2⟩
        subst h1; subst h2; simp [splitAtSub]
      | cons c cs =>
        have hp : pat.isPrefixOf (pat ++ b) = true := isPrefixOf_exists.mpr ⟨b, rfl⟩
        rw [h] at hp
        simp [splitAtSub, hp]
    | cons c a ih =>
      simp only [containsSub, List.cons_append, splitAtSub]
      split
      · simp
      · simpa [containsSub] using ih

/-- A successful match decomposes the string as start marker, gap, separator, captured incoming text, end marker, remainder. -/
theorem tryMatch_sound {s inc rest : List Char} (h : tryMatch s = some (inc, rest)) :
    ∃ gap, s = startMarker ++ (gap ++ (sepMarker ++ (inc ++ (endMarker ++ rest)))) := by
  unfold tryMatch at h
  split at h
  · rename_i hp
    rcases Option.bind_eq_some.mp h with ⟨⟨gap, afterSep⟩, h1, h2⟩
    dsimp only at h2
    rcases isPrefixOf_exists.mp hp with ⟨t, ht⟩
    have hdrop : s.drop startMarker.length = t := by rw [ht]; exact List.drop_left _ _
    rw [hdrop] at h1
    refine ⟨gap, ?_⟩
    rw [ht, splitAtSub_sound h1, splitAtSub_sound h2]
  · cases h

/-- A match consumes the three markers (47 characters) besides the gap and the capture, so the capture plus the remainder is shorter than the matched string. -/
theorem tryMatch_lengths {s inc rest : List Char} (h : tryMatch s = some (inc, rest)) :
    inc.length + rest.length + 47 ≤ s.length := by
  rcases tryMatch_sound h with ⟨gap, hg⟩
  have h1 : startMarker.length = 12 := by decide
  have h2 : sepMarker.length = 7 := by decide
  have h3 : endMarker.length = 28 := by decide
  rw [hg]
  simp only [List.length_append, h1, h2, h3]
  omega

/-- The fuel is irrelevant as long as it covers the length of the string. -/
theorem resolveAux_congr :
    ∀ (f1 f2 : Nat) (s : List Char), s.length ≤ f1 → s.length ≤ f2 →
      resolveAux f1 s = resolveAux f2 s := by
  intro f1
  induction f1 with
  | zero =>
    intro f2 s h1 _
    have hs : s = [] := List.length_eq_zero.mp (Nat.le_zero.mp h1)
    subst hs
    cases f2 <;> simp [resolveAux]
  | succ f1 ih =>
    intro f2 s h1 h2
    cases s with
    | nil => cases f2 <;> simp [resolveAux]
    | cons c cs =>
      cases f2 with
      | zero => simp at h2
      | succ f2 =>
        simp only [resolveAux]
        cases hm : tryMatch (c :: cs) with
        | some p =>
          obtain ⟨inc, rest⟩ := p
          have hl := tryMatch_lengths hm
          simp only [List.length_cons] at h1 h2 hl
          dsimp only
          rw [ih f2 rest (by omega) (by omega)]
        | none =>
          simp only [List.length_cons] at h1 h2
          dsimp only
          rw [ih f2 cs (by omega) (by omega)]

/-- Substitution step on a match: emit the captured group and continue after the match. -/
theorem resolve_cons_some {c : Char} {cs inc rest : List Char}
    (h : tryMatch (c :: cs) = some (inc, rest)) :
    resolve (c :: cs) = inc ++ resolve rest := by
  have hl := tryMatch_lengths h
  simp only [List.length_cons] at hl
  unfold resolve
  simp only [List.length_cons, resolveAux, h]
  rw [resolveAux_congr cs.length rest.length rest (by omega) le_rfl]

/-- Substitution step without a match: keep the character and advance one position. -/
theorem resolve_cons_none {c : Char} {cs : List Char}
    (h : tryMatch (c :: cs) = none) :
    resolve (c :: cs) = c :: resolve cs := by
  unfold resolve
  simp only [List.length_cons, resolveAux, h]

/-- The pattern matches a well-formed block at the current position whenever the gap holds no separator start and the incoming text holds no end-marker start. -/
theorem tryMatch_block {gap inc rest : List Char}
    (hg : noStartIn sepMarker gap (sepMarker ++ (inc ++ (endMarker ++ rest))) = true)
    (hi : noStartIn endMarker inc (endMarker ++ rest) = true) :
    tryMatch (startMarker ++ (gap ++ (sepMarker ++ (inc ++ (endMarker ++ rest)))))
      = some (inc, rest) := by
  have hp : startMarker.isPrefixOf
      (startMarker ++ (gap ++ (sepMarker ++ (inc ++ (endMarker ++ rest))))) = true :=
    isPrefixOf_exists.mpr ⟨_, rfl⟩
  unfold tryMatch
  rw [if_pos hp, List.drop_left, splitAtSub_append hg, splitAtSub_self]
  simp only [Option.map_some', Option.some_bind]
  rw [splitAtSub_append hi, splitAtSub_self]
  simp

/-- Frame lemma: a region in which no start marker begins is copied byte for byte. -/
theorem resolve_append {a s : List Char} (h : noStartIn startMarker a s = true) :
    resolve (a ++ s) = a ++ resolve s := by
  induction a with
  | nil => simp
  | cons c a ih =>
    simp only [noStartIn, Bool.and_eq_true, Bool.not_eq_true'] at h
    obtain ⟨h1, h2⟩ := h
    have hn : tryMatch (c :: (a ++ s)) = none := by
      unfold tryMatch
      rw [if_neg]
      simp [h1]
    simp only [List.cons_append]
    rw [resolve_cons_none hn, ih h2]

/-- A content with no complete conflict block is left byte-for-byte unchanged. -/
theorem resolve_eq_self {s : List Char}
    (h : ¬ ∃ a gap inc rest, s =
      a ++ (startMarker ++ (gap ++ (sepMarker ++ (inc ++ (endMarker ++ rest)))))) :
    resolve s = s := by
  induction s with
  | nil => rfl
  | cons c cs ih =>
    cases hm : tryMatch (c :: cs) with
    | some p =>
      obtain ⟨inc, rest⟩ := p
      rcases tryMatch_sound hm with ⟨gap, hg⟩
      exact absurd ⟨[], gap, inc, rest, by simpa using hg⟩ h
    | none =>
      have h2 : ¬ ∃ a gap inc rest, cs =
          a ++ (startMarker ++ (gap ++ (sepMarker ++ (inc ++ (endMarker ++ rest))))) := by
        rintro ⟨a, gap, inc, rest, hcs⟩
        exact h ⟨c :: a, gap, inc, rest, by rw [hcs]; simp⟩
      rw [resolve_cons_none hm, ih h2]

/-- The substitution never lengthens the content, whatever the fuel. -/
theorem resolveAux_length :
    ∀ (fuel : Nat) (s : List Char), (resolveAux fuel s).length ≤ s.length := by
  intro fuel
  induction fuel with
  | zero => intro s; simp [resolveAux]
  | succ fuel ih =>
    intro s
    cases s with
    | nil => simp [resolveAux]
    | cons c cs =>
      simp only [resolveAux]
      cases hm : tryMatch (c :: cs) with
      | some p =>
        obtain ⟨inc, rest⟩ := p
        have hl := tryMatch_lengths hm
        have hr := ih rest
        dsimp only
        simp only [List.length_append, List.length_cons] at *
        omega
      | none =>
        have hr := ih cs
        dsimp only
        simp only [List.length_cons]
        omega

/-- Substitution step on a match, stated for an arbitrary nonempty-by-construction string. -/
theorem resolve_match {s inc rest : List Char} (hm : tryMatch s = some (inc, rest)) :
    resolve s = inc ++ resolve rest := by
  cases s with
  | nil =>
    have : tryMatch [] = none := rfl
    rw [this] at hm
    cases hm
  | cons c cs => exact resolve_cons_some hm

/-- A string without the character `<` holds no start marker. -/
theorem no_start_of_no_lt {s : List Char} (h : ('<' : Char) ∈ s → False) :
    ¬ ∃ a b, s = a ++ (startMarker ++ b) := by
  rintro ⟨a, b, rfl⟩
  apply h
  have h0 : ('<' : Char) ∈ startMarker := by decide
  simp only [List.mem_append]
  tauto

/-- A string without the character `<` holds no complete conflict block. -/
theorem no_block_of_no_lt {s : List Char} (h : ('<' : Char) ∈ s → False) :
    ¬ ∃ a gap inc rest, s =
      a ++ (startMarker ++ (gap ++ (sepMarker ++ (inc ++ (endMarker ++ rest))))) := by
  rintro ⟨a, gap, inc, rest, hs⟩
  exact no_start_of_no_lt h ⟨a, _, hs⟩

/-- A string without the character `=` holds no complete conflict block. -/
theorem no_block_of_no_eq {s : List Char} (h : ('=' : Char) ∈ s → False) :
    ¬ ∃ a gap inc rest, s =
      a ++ (startMarker ++ (gap ++ (sepMarker ++ (inc ++ (endMarker ++ rest))))) := by
  rintro ⟨a, gap, inc, rest, rfl⟩
  apply h
  have h0 : ('=' : Char) ∈ sepMarker := by decide
  simp only [List.mem_append]
  tauto

/-- The Scanner's executable test, characterised declaratively. -/
theorem isCandidate_iff {f : FileEntry} :
    isCandidate f = true ↔
      ((∃ p, f.name = p ++ ".tsx".toList) ∨ (∃ p, f.name = p ++ ".ts".toList)) ∧
      ((∃ a b, f.root = a ++ ("client".toList ++ b)) ∨
        (∃ a b, f.root = a ++ ("server".toList ++ b))) ∧
      (∃ content, f.readResult = some content ∧ ∃ a b, content = a ++ (startMarker ++ b)) := by
  have hext_iff : (".tsx".toList.isSuffixOf f.name || ".ts".toList.isSuffixOf f.name) = true ↔
      ((∃ p, f.name = p ++ ".tsx".toList) ∨ (∃ p, f.name = p ++ ".ts".toList)) := by
    simp only [Bool.or_eq_true, isSuffixOf_exists]
  have hdir_iff : (containsSub "client".toList f.root || containsSub "server".toList f.root) = true ↔
      ((∃ a b, f.root = a ++ ("client".toList ++ b)) ∨
        (∃ a b, f.root = a ++ ("server".toList ++ b))) := by
    simp only [Bool.or_eq_true, containsSub_iff]
  cases hr : f.readResult with
  | none =>
    have hL : isCandidate f = false := by
      unfold isCandidate
      rw [hr]
      split <;> rfl
    rw [hL]
    simp [hr]
  | some content =>
    unfold isCandidate
    rw [hr]
    dsimp only
    split
    · rename_i hc
      simp only [Bool.and_eq_true] at hc
      constructor
      · intro h
        exact ⟨hext_iff.mp hc.1, hdir_iff.mp hc.2, content, rfl, containsSub_iff.mp h⟩
      · rintro ⟨_, _, c2, hc2, a, b, hab⟩
        injection hc2 with h3
        subst h3
        exact containsSub_iff.mpr ⟨a, b, hab⟩
    · rename_i hc
      constructor
      · intro h
        cases h
      · rintro ⟨h1, h2, _⟩
        exact absurd (by rw [Bool.and_eq_true]; exact ⟨hext_iff.mpr h1, hdir_iff.mpr h2⟩) hc

/-- Claim C1, counterexample: the single well-formed conflict block file does NOT resolve to `B\n`.  The capture group starts right after the separator literal, so it keeps the newline preceding `B`, and the newline after the end marker is outside the match. -/
theorem C1_counterexample :
    resolve roundTripInput ≠ "B\n".toList := by decide

/-- Claim C1, amended: the single well-formed conflict block file resolves to exactly `\nB\n\n` — the captured incoming span `\nB\n` followed by the newline after the end marker. -/
theorem C1_round_trip :
    resolve roundTripInput = "\nB\n\n".toList := by decide

/-- Claim C2: a file met by the walk is in the candidate list iff its name ends in `.tsx` or `.ts`, its directory path contains `client` or `server`, reading succeeds, and the content contains the start marker `<<<<<<< HEAD`. -/
theorem C2_scanner_candidates (entries : List FileEntry) (f : FileEntry) :
    f ∈ conflict_files entries ↔
      f ∈ entries ∧
      ((∃ p, f.name = p ++ ".tsx".toList) ∨ (∃ p, f.name = p ++ ".ts".toList)) ∧
      ((∃ a b, f.root = a ++ ("client".toList ++ b)) ∨
        (∃ a b, f.root = a ++ ("server".toList ++ b))) ∧
      (∃ content, f.readResult = some content ∧ ∃ a b, content = a ++ (startMarker ++ b)) := by
  unfold conflict_files
  rw [List.mem_filter, isCandidate_iff]

/-- Claim C3: a content made of two well-formed, non-overlapping conflict blocks with arbitrary material before, between, and after them (none of which lets a marker begin early) resolves both blocks independently in one pass and leaves every character outside them unchanged. -/
theorem C3_two_blocks (pre A B mid C D suf : List Char)
    (hpre : noStartIn startMarker pre (block A B ++ (mid ++ (block C D ++ suf))) = true)
    (hA : noStartIn sepMarker A
      (sepMarker ++ (B ++ (endMarker ++ (mid ++ (block C D ++ suf))))) = true)
    (hB : noStartIn endMarker B (endMarker ++ (mid ++ (block C D ++ suf))) = true)
    (hmid : noStartIn startMarker mid (block C D ++ suf) = true)
    (hC : noStartIn sepMarker C (sepMarker ++ (D ++ (endMarker ++ suf))) = true)
    (hD : noStartIn endMarker D (endMarker ++ suf) = true)
    (hsuf : ¬ ∃ a gap inc rest, suf =
      a ++ (startMarker ++ (gap ++ (sepMarker ++ (inc ++ (endMarker ++ rest)))))) :
    resolve (pre ++ (block A B ++ (mid ++ (block C D ++ suf))))
      = pre ++ (B ++ (mid ++ (D ++ suf))) := by
  rw [resolve_append hpre]
  have hb1 : block A B ++ (mid ++ (block C D ++ suf))
      = startMarker ++ (A ++ (sepMarker ++ (B ++ (endMarker ++ (mid ++ (block C D ++ suf)))))) := by
    simp [block]
  rw [hb1, resolve_match (tryMatch_block hA hB), resolve_append hmid]
  have hb2 : block C D ++ suf
      = startMarker ++ (C ++ (sepMarker ++ (D ++ (endMarker ++ suf)))) := by
    simp [block]
  rw [hb2, resolve_match (tryMatch_block hC hD), resolve_eq_self hsuf]

/-- Claim C4, counterexample: a file whose only `<<<<<<< HEAD` occurrence sits mid-line (after `x`) is still rewritten — the regex has no line anchor, so the claim that mid-line occurrences never begin a match is false. -/
theorem C4_counterexample :
    resolve midLineInput ≠ midLineInput ∧ resolve midLineInput = "x\nB\n".toList := by
  constructor <;> decide

/-- Claim C4, amended: the pattern matches the start marker at any position, with no line-start anchoring; any prefix `a` in which no start marker begins — in particular one ending mid-line — is copied and the block after it is matched and replaced. -/
theorem C4_unanchored (a A B : List Char)
    (ha : noStartIn startMarker a (block A B) = true)
    (hA : noStartIn sepMarker A (sepMarker ++ (B ++ endMarker)) = true)
    (hB : noStartIn endMarker B endMarker = true) :
    resolve (a ++ block A B) = a ++ B := by
  rw [resolve_append ha]
  have hb : block A B
      = startMarker ++ (A ++ (sepMarker ++ (B ++ (endMarker ++ ([] : List Char))))) := by
    simp [block]
  rw [hb, resolve_match (tryMatch_block (by simpa using hA) (by simpa using hB))]
  simp [resolve, resolveAux]

/-- Claim C5: in the resolution loop no error is caught — the first file whose read or write fails aborts the whole run; every earlier file is rewritten, and the failing file and every later one are left unprocessed. -/
theorem C5_resolution_aborts (pre post : List FileTask) (f : FileTask)
    (hpre : ∀ g ∈ pre, (g.readOk && g.writeOk) = true)
    (hf : (f.readOk && f.writeOk) = false) :
    resolveRun (pre ++ f :: post)
      = (pre.map (fun g => { g with content := resolve g.content }) ++ (f :: post), false) := by
  induction pre with
  | nil =>
    simp only [List.nil_append, resolveRun, resolve_conflicts, hf]
    simp
  | cons g pre ih =>
    have hg : (g.readOk && g.writeOk) = true := hpre g (by simp)
    have hpre2 : ∀ x ∈ pre, (x.readOk && x.writeOk) = true := fun x hx => hpre x (by simp [hx])
    simp only [List.cons_append, resolveRun, resolve_conflicts, hg, if_true, List.append_eq]
    rw [ih hpre2]
    simp

/-- Claim C6: during discovery a file whose read raises is caught, excluded from the candidate list, and the walk continues over the remaining entries; discovery itself never fails. -/
theorem C6_discovery_skips (pre post : List FileEntry) (f : FileEntry)
    (h : f.readResult = none) :
    conflict_files (pre ++ f :: post) = conflict_files pre ++ conflict_files post := by
  unfold conflict_files
  have hf : isCandidate f = false := by
    unfold isCandidate
    rw [h]
    split <;> rfl
  rw [List.filter_append]
  simp [List.filter_cons, hf]

/-- Claim C7: a content containing the start marker but no complete block (no start marker followed by a separator and then an end marker) is returned byte-for-byte unchanged. -/
theorem C7_incomplete_unchanged (s : List Char)
    (_hstart : ∃ a b, s = a ++ (startMarker ++ b))
    (hnoblock : ¬ ∃ a gap inc rest, s =
      a ++ (startMarker ++ (gap ++ (sepMarker ++ (inc ++ (endMarker ++ rest)))))) :
    resolve s = s :=
  resolve_eq_self hnoblock

/-- Claim C8: on a content with no start marker the transformation is the identity, so a second application changes nothing. -/
theorem C8_identity_on_resolved (s : List Char)
    (h : ¬ ∃ a b, s = a ++ (startMarker ++ b)) :
    resolve s = s ∧ resolve (resolve s) = resolve s := by
  have h2 : ¬ ∃ a gap inc rest, s =
      a ++ (startMarker ++ (gap ++ (sepMarker ++ (inc ++ (endMarker ++ rest))))) := by
    rintro ⟨a, gap, inc, rest, hs⟩
    exact h ⟨a, gap ++ (sepMarker ++ (inc ++ (endMarker ++ rest))), hs⟩
  have he := resolve_eq_self h2
  refine ⟨he, ?_⟩
  rw [he]
  exact he

/-- Claim C9: the transformation is not idempotent — `nestedInput`'s one-pass result still contains a start marker, and a second pass produces a different result. -/
theorem C9_not_idempotent :
    (∃ a b, resolve nestedInput = a ++ (startMarker ++ b)) ∧
      resolve (resolve nestedInput) ≠ resolve nestedInput := by
  constructor
  · exact ⟨[], "\n=======\nX\n>>>>>>> jules-testing-merges".toList, by decide⟩
  · decide

/-- Claim C10: the resolved content is never longer than the input, since each replacement is a substring of the matched block. -/
theorem C10_length_le (s : List Char) : (resolve s).length ≤ s.length :=
  resolveAux_length s.length s

/-- Witness for C2: a `.tsx` file under `./client` whose content holds the
start marker is in the candidate list. -/
theorem C2_witness :
    (⟨"./client".toList, "App.tsx".toList, some "x<<<<<<< HEAD y".toList⟩ : FileEntry) ∈
      conflict_files [⟨"./client".toList, "App.tsx".toList, some "x<<<<<<< HEAD y".toList⟩] :=
  (C2_scanner_candidates _ _).mpr
    ⟨by simp,
      Or.inl ⟨"App".toList, by decide⟩,
      Or.inl ⟨"./".toList, [], by decide⟩,
      "x<<<<<<< HEAD y".toList, rfl, "x".toList, " y".toList, by decide⟩

/-- Witness for C3: two concrete well-formed blocks with concrete frames
resolve to the two incoming sides with the frames intact. -/
theorem C3_witness :
    resolve ("P;\n".toList ++ (block "\na\n".toList "\nb\n".toList ++
        ("M;\n".toList ++ (block "\nc\n".toList "\nd\n".toList ++ "S;\n".toList))))
      = "P;\n".toList ++ ("\nb\n".toList ++ ("M;\n".toList ++ ("\nd\n".toList ++ "S;\n".toList))) :=
  C3_two_blocks _ _ _ _ _ _ _ (by decide) (by decide) (by decide) (by decide) (by decide)
    (by decide) (no_block_of_no_lt (by decide))

/-- Witness for C4 (amended): a block preceded by `x` alone — so its start
marker sits mid-line — is matched and replaced. -/
theorem C4_witness :
    resolve ("x".toList ++ block "\nA\n".toList "\nB\n".toList) = "x".toList ++ "\nB\n".toList :=
  C4_unanchored _ _ _ (by decide) (by decide) (by decide)

/-- Witness for C5: with one good file, one failing file, one later file,
the run rewrites the first, stops at the second, and leaves the third
untouched. -/
theorem C5_witness :
    resolveRun ([⟨"ok".toList, true, true⟩] ++
        (⟨"x<".toList, false, true⟩ : FileTask) :: [⟨"y".toList, true, true⟩])
      = ([(⟨"ok".toList, true, true⟩ : FileTask)].map (fun g => { g with content := resolve g.content })
          ++ ((⟨"x<".toList, false, true⟩ : FileTask) :: [⟨"y".toList, true, true⟩]), false) :=
  C5_resolution_aborts _ _ _ (by decide) (by decide)

/-- Witness for C6: an unreadable file between two others is dropped and
the walk goes on. -/
theorem C6_witness :
    conflict_files ([⟨"./client".toList, "a.ts".toList, some "<<<<<<< HEAD".toList⟩] ++
        (⟨"./server".toList, "b.ts".toList, none⟩ : FileEntry) ::
        [⟨"./server".toList, "c.ts".toList, some "<<<<<<< HEAD".toList⟩])
      = conflict_files [⟨"./client".toList, "a.ts".toList, some "<<<<<<< HEAD".toList⟩] ++
        conflict_files [⟨"./server".toList, "c.ts".toList, some "<<<<<<< HEAD".toList⟩] :=
  C6_discovery_skips _ _ _ rfl

/-- Witness for C7: a file holding a start marker but no separator at all
is left unchanged. -/
theorem C7_witness :
    resolve "<<<<<<< HEAD\nA\n".toList = "<<<<<<< HEAD\nA\n".toList :=
  C7_incomplete_unchanged _ ⟨[], "\nA\n".toList, by decide⟩ (no_block_of_no_eq (by decide))

/-- Witness for C8: an already-resolved file is a fixed point and stays
one on a second pass. -/
theorem C8_witness :
    resolve "const x = 1;\n".toList = "const x = 1;\n".toList ∧
      resolve (resolve "const x = 1;\n".toList) = resolve "const x = 1;\n".toList :=
  C8_identity_on_resolved _ (no_start_of_no_lt (by decide))

/-- Witness for C10: the bound holds at a concrete conflict file. -/
theorem C10_witness :
    (resolve roundTripInput).length ≤ roundTripInput.length :=
  C10_length_le roundTripInput
